import Mathlib

/-!
# Verification of the brix incremental build engine (src/brix/core.py)

This file shallowly embeds the data model and operations of `brix.core`:
the digest cache (`FileLoader`), the conditional execution wrapper
(`ExecuteOnTouchedAction`), the bundled actions, the dependency-graph
collection (`collect_nodes`) and the dispatch loop of
`execute_dependency_graph`.  Python dicts are modelled as insertion-ordered
association lists, the filesystem as a finite map from paths to entries,
subprocess invocation and `os.makedirs` as oracle functions, and the
unbounded recursion / while loops as fuel-indexed functions (`none` =
the run has not terminated within the given fuel).
-/

namespace Brix

/-- Artifact status, mirroring `Status` in core.py. -/
inductive Status where
  | unchanged
  | created
  | deleted
  | modified
deriving DecidableEq, Repr

/-- A filesystem entry: a directory or a regular file with a content digest.
The digest stands for the sha256 of the file's bytes (`_compute_hash`);
`mtime` models `os.path.getmtime`. -/
inductive FsEntry where
  | dir (mtime : Nat)
  | file (digest : String) (mtime : Nat)
deriving DecidableEq, Repr

/-- The filesystem: a finite map from absolute paths to entries. -/
abbrev Fs := List (String × FsEntry)

/-- Look up a path in the filesystem. -/
def fsLookup (fs : Fs) (p : String) : Option FsEntry :=
  (fs.find? (fun e => e.1 == p)).map (fun e => e.2)

/-- `os.path.exists`. -/
def fsExists (fs : Fs) (p : String) : Bool :=
  (fsLookup fs p).isSome

/-- `FileLoader._compute_hash`: empty digest for nonexistent paths and
directories, content digest otherwise. -/
def computeHash (fs : Fs) (p : String) : String :=
  match fsLookup fs p with
  | none => ""
  | some (.dir _) => ""
  | some (.file d _) => d

/-- `os.path.getmtime`, with 0 for missing paths (core.py uses 0.0). -/
def fsMtime (fs : Fs) (p : String) : Nat :=
  match fsLookup fs p with
  | none => 0
  | some (.dir t) => t
  | some (.file _ t) => t

/-- String prefix test over the underlying character lists (the core
`String.startsWith` does not reduce inside the kernel). -/
def strStartsWith (p pre : String) : Bool :=
  pre.toList.isPrefixOf p.toList

/-- String suffix test over the underlying character lists. -/
def strEndsWith (p suf : String) : Bool :=
  suf.toList.isSuffixOf p.toList

/-- Drop the first `n` characters. -/
def strDrop (p : String) (n : Nat) : String :=
  ⟨p.toList.drop n⟩

/-- Drop the last `n` characters. -/
def strDropRight (p : String) (n : Nat) : String :=
  ⟨p.toList.take (p.toList.length - n)⟩

/-- Split a character list on a separator. -/
def splitOnChar (sep : Char) : List Char → List (List Char)
  | [] => [[]]
  | c :: rest =>
    let r := splitOnChar sep rest
    if c == sep then [] :: r
    else
      match r with
      | [] => [[c]]
      | h :: t => (c :: h) :: t

/-- Split a path on `'/'`. -/
def splitSlash (p : String) : List String :=
  (splitOnChar '/' p.toList).map List.asString

/-- `sep.join(l)` (Python `str.join`). -/
def jn (sep : String) : List String → String
  | [] => ""
  | [x] => x
  | x :: y :: rest => x ++ sep ++ jn sep (y :: rest)

/-- Replace every (leftmost, non-overlapping) occurrence of a nonempty
pattern, fuel-indexed to stay structural. -/
def replAux (pat rep : List Char) : Nat → List Char → List Char
  | 0, l => l
  | _ + 1, [] => []
  | fuel + 1, c :: rest =>
    if pat.isPrefixOf (c :: rest) then
      rep ++ replAux pat rep fuel ((c :: rest).drop pat.length)
    else c :: replAux pat rep fuel rest

/-- Python `str.replace` (for nonempty patterns). -/
def strReplace (s pat rep : String) : String :=
  ⟨replAux pat.toList rep.toList (s.toList.length + 1) s.toList⟩

/-- Python `str.strip()` restricted to spaces (all the bundled actions
produce). -/
def pyStrip (s : String) : String :=
  ⟨((s.toList.dropWhile (fun c => c == ' ')).reverse.dropWhile
      (fun c => c == ' ')).reverse⟩

/-- `os.path.isabs`. -/
def isAbs (p : String) : Bool := strStartsWith p "/"

/-- `os.path.relpath p root` for the cases exercised by core.py: the root
itself relativizes to `"."`, paths under the root drop the root prefix,
and other paths are returned unchanged. -/
def relPath (root p : String) : String :=
  if p == root then "."
  else if strStartsWith p (root ++ "/") then strDrop p (root.length + 1)
  else p

/-- `os.path.dirname` (for slash-separated relative or absolute paths). -/
def dirname (p : String) : String :=
  let parts := splitSlash p
  if parts.length ≤ 1 then "" else jn "/" parts.dropLast

/-- `os.path.basename`. -/
def basename (p : String) : String :=
  ((splitSlash p).getLast?).getD ""

/-- A `File` node's data fields (its edge sets live in the graph model). -/
structure FileN where
  path : String
  timestamp : Nat
  hash : String
  status : Status
deriving DecidableEq, Repr

/-- An insertion-ordered association map, as a Python dict. -/
abbrev StrMap := List (String × String)

/-- Dict lookup with default `""` (`self._cache.get(key, "")`). -/
def lookupD (m : StrMap) (k : String) : String :=
  ((m.find? (fun e => e.1 == k)).map (fun e => e.2)).getD ""

/-- Dict update `m[k] = v`, preserving insertion order. -/
def setKey : StrMap → String → String → StrMap
  | [], k, v => [(k, v)]
  | (k', v') :: rest, k, v =>
    if k' == k then (k', v) :: rest else (k', v') :: setKey rest k v

/-- The mutable world threaded through FileLoader operations: the
filesystem, the loader's in-memory cache map `_cache`, and the log of
serialized cache files (`json.dump`), most recent first. -/
structure WState where
  fs : Fs
  cache : StrMap
  writes : List StrMap
deriving DecidableEq, Repr

/-- `abs_path = os.path.join(self.root_dir, path) if not os.path.isabs(path)
else path`. -/
def absPathOf (root path : String) : String :=
  if isAbs path then path else root ++ "/" ++ path

/-- `FileLoader.load_file`: resolves the path, computes the current digest,
classifies the status against the cached digest, updates the in-memory
cache, and returns the new `File`. -/
def load_file (root : String) (st : WState) (path : String) : FileN × WState :=
  let absPath := absPathOf root path
  let relp := relPath root absPath
  let currentHash := computeHash st.fs absPath
  let cachedHash := lookupD st.cache relp
  let status :=
    if ¬ fsExists st.fs absPath then Status.deleted
    else if cachedHash = "" ∧ currentHash ≠ "" then Status.created
    else if currentHash = cachedHash ∧ currentHash ≠ "" then Status.unchanged
    else Status.modified
  let f : FileN :=
    { path := absPath
      timestamp := if fsExists st.fs absPath then fsMtime st.fs absPath else 0
      hash := currentHash
      status := status }
  (f, { st with cache := setKey st.cache relp currentHash })

/-- `FileLoader.save_cache`: with `files = None` the whole in-memory map is
serialized; with a set of files a FRESH dict is built from just those
files' entries and that dict is serialized.  In neither case is the
in-memory `_cache` modified. -/
def save_cache (root : String) (st : WState) (files : Option (List FileN)) : WState :=
  match files with
  | none => { st with writes := st.cache :: st.writes }
  | some fl =>
    let m := fl.foldl (fun m f => setKey m (relPath root f.path) f.hash) []
    { st with writes := m :: st.writes }

/-- A node of the dependency graph, at the level of detail the wrapper and
bundled actions observe: a non-file `Data` artifact carrying a status, a
`File` artifact, or a `Command`. -/
inductive BNode where
  | data (status : Status)
  | file (f : FileN)
  | cmd
deriving DecidableEq, Repr

/-- The result of an action invocation: the boolean success value, the
(possibly mutated) predecessor and successor sets, and the world state. -/
structure ARes where
  ok : Bool
  preds : List BNode
  succs : List BNode
  st : WState
deriving DecidableEq, Repr

/-- An action's `execute` method, as a function of the live edge sets and
the world. -/
abbrev InnerAction := List BNode → List BNode → WState → ARes

/-- An oracle for `subprocess.run(command, shell=True, check=True)`:
`some st'` is an exit-code-0 run with its effects on the world, `none`
is a `CalledProcessError`. -/
abbrev Spawn := String → WState → Option WState

/-- An oracle for `os.makedirs(path, exist_ok=True)`: `none` is an
`OSError`. -/
abbrev Mkdirs := String → WState → Option WState

/-- The `should_execute` test of `ExecuteOnTouchedAction.execute`: some
predecessor is a `File` with status Created, Modified or Deleted.  (Note
the code tests `isinstance(pred, File)`, so non-`File` `Data` artifacts
never make a command touched.) -/
def shouldExec (preds : List BNode) : Bool :=
  preds.any fun p =>
    match p with
    | .file f =>
      f.status == Status.created || f.status == Status.modified
        || f.status == Status.deleted
    | _ => false

/-- Re-digest and reclassify one file in the touched-success branch of
`ExecuteOnTouchedAction.execute` (rule: missing → Deleted, cached empty →
Created, digest differs → Modified, else Unchanged). -/
def touchReclass (root : String) (st : WState) (f : FileN) : FileN :=
  if fsExists st.fs f.path then
    let h := computeHash st.fs f.path
    let c := lookupD st.cache (relPath root f.path)
    { f with
        hash := h
        status :=
          if c = "" then Status.created
          else if h ≠ c then Status.modified
          else Status.unchanged }
  else { f with hash := "", status := Status.deleted }

/-- Re-digest and reclassify one file in the untouched (skip) branch of
`ExecuteOnTouchedAction.execute` (rule: missing → Deleted, digest matches
cache and is non-empty → Unchanged, else Modified; never Created). -/
def skipReclass (root : String) (st : WState) (f : FileN) : FileN :=
  if fsExists st.fs f.path then
    let h := computeHash st.fs f.path
    let c := lookupD st.cache (relPath root f.path)
    { f with
        hash := h
        status := if h = c ∧ h ≠ "" then Status.unchanged else Status.modified }
  else { f with hash := "", status := Status.deleted }

/-- Apply an update to every `File` node of an edge set. -/
def mapFiles (g : FileN → FileN) (l : List BNode) : List BNode :=
  l.map fun n =>
    match n with
    | .file f => .file (g f)
    | x => x

/-- The `File` members of an edge set. -/
def filesOf (l : List BNode) : List FileN :=
  l.filterMap fun n =>
    match n with
    | .file f => some f
    | _ => none

/-- `ExecuteOnTouchedAction.execute`: if some predecessor file is touched,
run the inner action, and on success re-digest/reclassify every file in
`P ∪ S` and save their cache entries; on inner failure return the inner
result unmodified.  If untouched, skip the inner action and still
re-digest/reclassify every file (skip rule) and save. -/
def executeOnTouched (root : String) (inner : InnerAction)
    (preds succs : List BNode) (st : WState) : ARes :=
  if shouldExec preds then
    let r := inner preds succs st
    if r.ok then
      let preds' := mapFiles (touchReclass root r.st) r.preds
      let succs' := mapFiles (touchReclass root r.st) r.succs
      ⟨true, preds', succs',
        save_cache root r.st (some (filesOf preds' ++ filesOf succs'))⟩
    else r
  else
    let preds' := mapFiles (skipReclass root st) preds
    let succs' := mapFiles (skipReclass root st) succs
    ⟨true, preds', succs',
      save_cache root st (some (filesOf preds' ++ filesOf succs'))⟩

/-- First `File` in an edge set satisfying a selector (the `for … break`
search loops of the bundled actions). -/
def firstFileWith (sel : FileN → Bool) : List BNode → Option FileN
  | [] => none
  | .file f :: rest => if sel f then some f else firstFileWith sel rest
  | _ :: rest => firstFileWith sel rest

/-- Update in place the first `File` satisfying the selector, leaving every
other node untouched (the bundled actions mutate exactly the found file). -/
def updateFirstFileWith (sel : FileN → Bool) (g : FileN → FileN) :
    List BNode → List BNode
  | [] => []
  | .file f :: rest =>
    if sel f then .file (g f) :: rest
    else .file f :: updateFirstFileWith sel g rest
  | n :: rest => n :: updateFirstFileWith sel g rest

/-- `CommandLineAction.execute`: run the shell string; never touches
artifact metadata. -/
def commandLineExecute (spawn : Spawn) (command : String)
    (preds succs : List BNode) (st : WState) : ARes :=
  match spawn command st with
  | some st' => ⟨true, preds, succs, st'⟩
  | none => ⟨false, preds, succs, st⟩

/-- `MakeDirAction.execute`: find a `File` in the successors, create the
directory, and — when a file_loader was supplied — set the found file's
hash to `""` and its status from the cached digest. -/
def makeDirExecute (mkdirs : Mkdirs) (fileLoader : Option String)
    (preds succs : List BNode) (st : WState) : ARes :=
  match firstFileWith (fun _ => true) succs with
  | none => ⟨false, preds, succs, st⟩
  | some dirFile =>
    match mkdirs dirFile.path st with
    | none => ⟨false, preds, succs, st⟩
    | some st' =>
      match fileLoader with
      | none => ⟨true, preds, succs, st'⟩
      | some root =>
        let c := lookupD st'.cache (relPath root dirFile.path)
        let upd := fun f =>
          { f with
              hash := ""
              status := if c = "" then Status.created else Status.unchanged }
        ⟨true, preds, updateFirstFileWith (fun _ => true) upd succs, st'⟩

/-- The post-subprocess metadata update shared by the compile/link actions:
re-digest the produced file and classify Created / Modified / Unchanged
against the cached digest. -/
def outputReclass (root : String) (st : WState) (f : FileN) : FileN :=
  let h := computeHash st.fs f.path
  let c := lookupD st.cache (relPath root f.path)
  { f with
      hash := h
      status :=
        if c = "" then Status.created
        else if h ≠ c then Status.modified
        else Status.unchanged }

/-- `CompileCppAction.execute` (the action dereferences
`self.file_loader.root_dir` unconditionally, so the loader's root is a
required argument). -/
def compileCppExecute (spawn : Spawn) (root : String)
    (preds succs : List BNode) (st : WState) : ARes :=
  match firstFileWith (fun f => strEndsWith f.path ".cpp") preds with
  | none => ⟨false, preds, succs, st⟩
  | some cppFile =>
    match firstFileWith (fun f => strEndsWith f.path ".o") succs with
    | none => ⟨false, preds, succs, st⟩
    | some oFile =>
      let command := "g++ -c " ++ relPath root cppFile.path ++ " -o "
        ++ relPath root oFile.path ++ " -fPIC"
      match spawn command st with
      | none => ⟨false, preds, succs, st⟩
      | some st' =>
        ⟨true, preds,
          updateFirstFileWith (fun f => strEndsWith f.path ".o")
            (fun _ => outputReclass root st' oFile) succs, st'⟩

/-- `LinkCppSharedAction.execute`. -/
def linkCppSharedExecute (spawn : Spawn) (root : String)
    (preds succs : List BNode) (st : WState) : ARes :=
  let oFiles := (filesOf preds).filter (fun f => strEndsWith f.path ".o")
  if oFiles.isEmpty then ⟨false, preds, succs, st⟩
  else
    match firstFileWith (fun f => strEndsWith f.path ".so") succs with
    | none => ⟨false, preds, succs, st⟩
    | some soFile =>
      let command := "g++ -shared "
        ++ jn " " (oFiles.map (fun o => relPath root o.path))
        ++ " -o " ++ relPath root soFile.path
      match spawn command st with
      | none => ⟨false, preds, succs, st⟩
      | some st' =>
        ⟨true, preds,
          updateFirstFileWith (fun f => strEndsWith f.path ".so")
            (fun _ => outputReclass root st' soFile) succs, st'⟩

/-- Python `set()` built from a list, modelled as first-occurrence
deduplication (the iteration order of a one-element set is determined,
which is all the theorems below rely on). -/
def pyDedup (l : List String) : List String :=
  l.foldl (fun acc x => if x ∈ acc then acc else acc ++ [x]) []

/-- The `lib_names` computation of `LinkCppAppAction.execute`:
`os.path.basename(so.path).replace('lib', '').replace('.so', '')` —
note `str.replace` removes EVERY occurrence, not just a prefix/suffix. -/
def stripLibName (p : String) : String :=
  strReplace (strReplace (basename p) "lib" "") ".so" ""

/-- The `-L<dir> -l<name>` flag string of `LinkCppAppAction.execute`: the
deduplicated set of `.so` directories zipped against the stripped
basenames; empty when there are no `.so` files. -/
def soLibFlags (root : String) (soPaths : List String) : String :=
  if soPaths.isEmpty then ""
  else
    let dirs := pyDedup (soPaths.map dirname)
    let names := soPaths.map stripLibName
    jn " "
      ((dirs.zip names).map fun dn => "-L " ++ relPath root dn.1 ++ " -l" ++ dn.2)

/-- Modelled from the claim's words (C6): one `-L<dir> -l<name>` pair per
`.so` file, each paired with its own file's directory, the name being the
basename with only a LEADING `lib` prefix and a TRAILING `.so` suffix
stripped.  Used solely for comparison against `soLibFlags`. -/
def specStripLibName (p : String) : String :=
  let b := basename p
  let b1 := if strStartsWith b "lib" then strDrop b 3 else b
  if strEndsWith b1 ".so" then strDropRight b1 3 else b1

/-- Modelled from the claim's words (C6); see `specStripLibName`. -/
def specLinkAppLibFlags (root : String) (soPaths : List String) : String :=
  jn " "
    (soPaths.map fun p =>
      "-L " ++ relPath root (dirname p) ++ " -l" ++ specStripLibName p)

/-- `LinkCppAppAction.execute`. -/
def linkCppAppExecute (spawn : Spawn) (root : String)
    (preds succs : List BNode) (st : WState) : ARes :=
  let oFiles := (filesOf preds).filter (fun f => strEndsWith f.path ".o")
  let soFiles := (filesOf preds).filter (fun f => strEndsWith f.path ".so")
  if oFiles.isEmpty then ⟨false, preds, succs, st⟩
  else
    let isExe := fun (f : FileN) =>
      ¬ (strEndsWith f.path ".o" || strEndsWith f.path ".so"
        || strEndsWith f.path ".cpp" || strEndsWith f.path ".h")
    match firstFileWith isExe succs with
    | none => ⟨false, preds, succs, st⟩
    | some exeFile =>
      let libFlags := soLibFlags root (soFiles.map (fun f => f.path))
      let command := pyStrip ("g++ "
        ++ jn " " (oFiles.map (fun o => relPath root o.path))
        ++ " -o " ++ relPath root exeFile.path ++ " " ++ libFlags)
      match spawn command st with
      | none => ⟨false, preds, succs, st⟩
      | some st' =>
        ⟨true, preds,
          updateFirstFileWith isExe
            (fun _ => outputReclass root st' exeFile) succs, st'⟩

/-- The Python class of a node: `Data`, its subclass `File`, `Command`, or
any other (direct) subclass of `Node`. -/
inductive NodeKind where
  | data
  | file
  | cmd
  | other
deriving DecidableEq, Repr

/-- The dependency graph, nodes named by naturals.  `hasAction` models
`hasattr(node, 'action') and isinstance(node.action, Action)`; `act n`
is the boolean result of the node's action. -/
structure Graph where
  kind : Nat → NodeKind
  preds : Nat → List Nat
  succs : Nat → List Nat
  hasAction : Nat → Bool
  act : Nat → Bool

/-- The `RuntimeError`s `collect_nodes` can raise: a back edge onto the
DFS stack ("Cycle detected involving …"), a bipartite-alternation
violation ("… has invalid predecessor/successor …"), or a node that is
neither Data, File nor Command ("Invalid node …: must be Data, File, or
Command"). -/
inductive CErr where
  | cycleDetected (n : Nat)
  | invalidStructure (n : Nat)
  | invalidNode (n : Nat)
deriving DecidableEq, Repr

/-- The per-node validation of `collect_nodes`: Data/File nodes may only
have Command neighbours, Command nodes only Data/File neighbours, and any
other kind is rejected.  Returns `none` when the node passes. -/
def validateE (g : Graph) (n : Nat) : Option CErr :=
  match g.kind n with
  | .data | .file =>
    if (g.preds n).all (fun p => g.kind p == NodeKind.cmd)
        && (g.succs n).all (fun s => g.kind s == NodeKind.cmd)
    then none else some (.invalidStructure n)
  | .cmd =>
    if (g.preds n).all
          (fun p => g.kind p == NodeKind.data || g.kind p == NodeKind.file)
        && (g.succs n).all
          (fun s => g.kind s == NodeKind.data || g.kind s == NodeKind.file)
    then none else some (.invalidStructure n)
  | .other => some (.invalidNode n)

/-- Run a step function over a worklist, threading the accumulated node
set and propagating the first error or fuel exhaustion (the `for pred in
node.predecessors: collect_nodes(pred)` loop, where an exception aborts
the loop). -/
def collectList (step : List Nat → Nat → Option (Except CErr (List Nat)))
    (nodes : List Nat) : List Nat → Option (Except CErr (List Nat))
  | [] => some (.ok nodes)
  | p :: rest =>
    match step nodes p with
    | some (.ok nodes') => collectList step nodes' rest
    | r => r

/-- `collect_nodes`, fuel-indexed (`none` = the recursion has not finished
within the fuel; the Python recursion is unbounded).  The node is first
checked against the DFS stack (`visiting`), then against the collected
set, then validated, then added to the collected set before its
predecessors are visited with the stack extended. -/
def collectNode (g : Graph) : Nat → List Nat → List Nat → Nat →
    Option (Except CErr (List Nat))
  | 0, _, _, _ => none
  | fuel + 1, visiting, nodes, n =>
    if n ∈ visiting then some (.error (.cycleDetected n))
    else if n ∈ nodes then some (.ok nodes)
    else
      match validateE g n with
      | some e => some (.error e)
      | none => collectList (collectNode g fuel (n :: visiting)) (n :: nodes) (g.preds n)

/-- The collection pass of `execute_dependency_graph`: visit every target
with an empty DFS stack, accumulating the collected set. -/
def collectTargets (g : Graph) (fuel : Nat) (targets : List Nat) :
    Option (Except CErr (List Nat)) :=
  collectList (collectNode g fuel []) [] targets

/-- `Reaches g n m`: node `m` is reachable from `n` by walking
predecessor edges (reflexive-transitive). -/
inductive Reaches (g : Graph) : Nat → Nat → Prop where
  | refl (n : Nat) : Reaches g n n
  | step {n m k : Nat} : m ∈ g.preds n → Reaches g m k → Reaches g n k

/-- There is a nonempty predecessor-cycle through `m`. -/
def CycleAt (g : Graph) (m : Nat) : Prop :=
  ∃ p, p ∈ g.preds m ∧ Reaches g p m

/-- No cycle is reachable from `x`. -/
def Safe (g : Graph) (x : Nat) : Prop :=
  ∀ m, Reaches g x m → ¬ CycleAt g m

/-- Node `x` passed `collect_nodes`' validation. -/
def Validated (g : Graph) (x : Nat) : Prop :=
  validateE g x = none

/-- A finished (black) node: safe, validated, and its predecessors all
collected. -/
def BlackIn (g : Graph) (N : List Nat) (x : Nat) : Prop :=
  Safe g x ∧ Validated g x ∧ ∀ p ∈ g.preds x, p ∈ N

/-- The DFS invariant: every collected node is either still on the stack
or finished. -/
def CollectInv (g : Graph) (V N : List Nat) : Prop :=
  ∀ x ∈ N, x ∈ V ∨ BlackIn g N x

theorem safe_of_preds_safe (g : Graph) (n : Nat)
    (h : ∀ p ∈ g.preds n, Safe g p) : Safe g n := by
  intro m hr hc
  cases hr with
  | refl =>
    rcases hc with ⟨p, hp, hpr⟩
    exact h p hp n hpr ⟨p, hp, hpr⟩
  | step hm hr' => exact h _ hm m hr' hc

theorem collectList_ok {g : Graph} {V : List Nat}
    (step : List Nat → Nat → Option (Except CErr (List Nat)))
    (hstep : ∀ ns p ns', CollectInv g V ns → step ns p = some (.ok ns') →
      ns ⊆ ns' ∧ p ∈ ns' ∧ p ∉ V ∧ CollectInv g V ns') :
    ∀ ps ns N', CollectInv g V ns →
      collectList step ns ps = some (.ok N') →
      ns ⊆ N' ∧ CollectInv g V N' ∧ ∀ p ∈ ps, p ∈ N' ∧ p ∉ V := by
  intro ps
  induction ps with
  | nil =>
    intro ns N' hInv h
    simp only [collectList, Option.some.injEq, Except.ok.injEq] at h
    subst h
    exact ⟨List.Subset.refl _, hInv, by simp⟩
  | cons p rest ih =>
    intro ns N' hInv h
    rw [collectList] at h
    rcases hr : step ns p with _ | r
    · rw [hr] at h; exact absurd h (by simp)
    · rcases r with e | ns₁
      · rw [hr] at h; exact absurd h (by simp)
      · rw [hr] at h
        obtain ⟨h1, h2, h3, h4⟩ := hstep ns p ns₁ hInv hr
        obtain ⟨s1, s2, s3⟩ := ih ns₁ N' h4 h
        refine ⟨h1.trans s1, s2, ?_⟩
        intro q hq
        rcases List.mem_cons.mp hq with hq | hq
        · subst hq; exact ⟨s1 h2, h3⟩
        · exact s3 q hq

theorem collectNode_ok (g : Graph) :
    ∀ fuel {V N : List Nat} {n : Nat} {N' : List Nat},
      CollectInv g V N → collectNode g fuel V N n = some (.ok N') →
      N ⊆ N' ∧ n ∈ N' ∧ n ∉ V ∧ CollectInv g V N' := by
  intro fuel
  induction fuel with
  | zero => intro V N n N' _ h; exact absurd h (by simp [collectNode])
  | succ f ih =>
    intro V N n N' hInv h
    rw [collectNode] at h
    by_cases hv : n ∈ V
    · rw [if_pos hv] at h; exact absurd h (by simp)
    · rw [if_neg hv] at h
      by_cases hn : n ∈ N
      · rw [if_pos hn] at h
        have hN : N = N' := by simpa using h
        subst hN
        exact ⟨List.Subset.refl _, hn, hv, hInv⟩
      · rw [if_neg hn] at h
        rcases hval : validateE g n with _ | e
        · rw [hval] at h
          have hInv' : CollectInv g (n :: V) (n :: N) := by
            intro x hx
            rcases List.mem_cons.mp hx with hx | hx
            · subst hx; exact Or.inl (List.mem_cons_self _ _)
            · rcases hInv x hx with hxv | hxb
              · exact Or.inl (List.mem_cons_of_mem _ hxv)
              · exact Or.inr ⟨hxb.1, hxb.2.1,
                  fun p hp => List.mem_cons_of_mem _ (hxb.2.2 p hp)⟩
          obtain ⟨hsub, hInvN', hall⟩ :=
            collectList_ok (collectNode g f (n :: V))
              (fun ns p ns' hi hc => ih hi hc) (g.preds n) (n :: N) N' hInv' h
          have hpreds : ∀ p ∈ g.preds n, p ∈ N' := fun p hp => (hall p hp).1
          have hsafePreds : ∀ p ∈ g.preds n, Safe g p := by
            intro p hp
            rcases hInvN' p (hall p hp).1 with hpv | hpb
            · exact absurd hpv (hall p hp).2
            · exact hpb.1
          have hsafe : Safe g n := safe_of_preds_safe g n hsafePreds
          have hnN' : n ∈ N' := hsub (List.mem_cons_self _ _)
          refine ⟨fun x hx => hsub (List.mem_cons_of_mem _ hx), hnN', hv, ?_⟩
          intro x hx
          rcases hInvN' x hx with hxv | hxb
          · rcases List.mem_cons.mp hxv with hxn | hxv'
            · subst hxn; exact Or.inr ⟨hsafe, hval, hpreds⟩
            · exact Or.inl hxv'
          · exact Or.inr hxb
        · rw [hval] at h; exact absurd h (by simp)

/-- If collection succeeds with an empty stack, every node reachable from
a collected node is collected and validated. -/
theorem reachable_validated {g : Graph} {N' : List Nat} {t m : Nat}
    (hInv : CollectInv g [] N') (ht : t ∈ N') (hr : Reaches g t m) :
    m ∈ N' ∧ Validated g m := by
  revert ht
  induction hr with
  | refl n =>
    intro ht
    rcases hInv n ht with hv | hb
    · exact absurd hv (List.not_mem_nil n)
    · exact ⟨ht, hb.2.1⟩
  | step hm _ ih =>
    intro ht
    rcases hInv _ ht with hv | hb
    · exact absurd hv (List.not_mem_nil _)
    · exact ih (hb.2.2 _ hm)

/-- If collection succeeds with an empty stack, every collected node is
safe (no reachable cycle). -/
theorem collected_safe {g : Graph} {N' : List Nat} {t : Nat}
    (hInv : CollectInv g [] N') (ht : t ∈ N') : Safe g t := by
  rcases hInv t ht with hv | hb
  · exact absurd hv (List.not_mem_nil t)
  · exact hb.1

/-- Does a collection result succeed? -/
def isOkCollect : Option (Except CErr (List Nat)) → Bool
  | some (.ok _) => true
  | _ => false

/-- Is a collection result specifically a cycle error? -/
def errIsCycle : Option (Except CErr (List Nat)) → Bool
  | some (.error (.cycleDetected _)) => true
  | _ => false

/-- The error of a failed collection, if any. -/
def collectErrOf : Option (Except CErr (List Nat)) → Option CErr
  | some (.error e) => some e
  | _ => none

/-- The mutable state of the dispatch loop of `execute_dependency_graph`:
the ready queue, the in-degree map, the completed set, the build-failed
flag, and a log of the action invocations performed. -/
structure ExecState where
  ready : List Nat
  indeg : List (Nat × Nat)
  completed : List Nat
  buildFailed : Bool
  executed : List Nat
deriving DecidableEq, Repr

/-- In-degree lookup. -/
def indegGet (m : List (Nat × Nat)) (n : Nat) : Nat :=
  (((m.find? (fun e => e.1 == n)).map (fun e => e.2))).getD 0

/-- In-degree update. -/
def indegSet : List (Nat × Nat) → Nat → Nat → List (Nat × Nat)
  | [], k, v => [(k, v)]
  | (k', v') :: rest, k, v =>
    if k' == k then (k', v) :: rest else (k', v') :: indegSet rest k v

/-- The submission loop: `while not ready.empty() and len(futures) <
n_threads`, moving nodes from the ready queue into the futures list.
Note the comparison is against the RAW `n_threads`, not
`max(1, n_threads)`. -/
def submitLoop (nThreads : Int) : List Nat → List Nat → List Nat × List Nat
  | [], futures => ([], futures)
  | r :: rest, futures =>
    if (futures.length : Int) < nThreads then submitLoop nThreads rest (futures ++ [r])
    else (r :: rest, futures)

/-- The outcome of `execute_node` for one future: the action raised
`BuildFailure`, returned early with `False` (build already failed), or
succeeded. -/
inductive NodeOutcome where
  | raised
  | retFalse
  | retTrue
deriving DecidableEq, Repr

/-- `execute_node`: an early `False` return when the build already failed;
otherwise run the action (logged) and raise on a `False` result. -/
def executeNode (g : Graph) (st : ExecState) (n : Nat) : NodeOutcome × ExecState :=
  if st.buildFailed then (.retFalse, st)
  else if g.hasAction n then
    let st' := { st with executed := st.executed ++ [n] }
    if g.act n then (.retTrue, st')
    else (.raised, { st' with buildFailed := true })
  else (.retTrue, st)

/-- On a node's success: decrement the in-degree of each successor inside
the collected set, enqueueing it when the in-degree reaches zero and the
build has not failed. -/
def decSucc (s : ExecState) (succ : Nat) : ExecState :=
  let d := indegGet s.indeg succ - 1
  let s' := { s with indeg := indegSet s.indeg succ d }
  if d = 0 ∧ ¬ s.buildFailed then { s' with ready := s'.ready ++ [succ] } else s'

/-- Handle the completed futures in order: successes update successors and
the completed set, a raised `BuildFailure` is caught and latches the
build-failed flag, an early `False` return is dropped. -/
def processDone (g : Graph) (nodesAll : List Nat) :
    ExecState → List Nat → ExecState
  | st, [] => st
  | st, n :: rest =>
    let (out, st1) := executeNode g st n
    let st2 :=
      match out with
      | .retTrue =>
        let st' := (g.succs n).foldl
          (fun s succ => if succ ∈ nodesAll then decSucc s succ else s) st1
        { st' with completed := st'.completed ++ [n] }
      | .raised => { st1 with buildFailed := true }
      | .retFalse => st1
    processDone g nodesAll st2 rest

/-- One pass of the dispatch `while` loop, in the deterministic
abstraction where every submitted future completes within the pass: if
the build has not failed, submit ready nodes while the futures count is
below `n_threads`, then process every completed future. -/
def loopIter (g : Graph) (nodesAll : List Nat) (nThreads : Int)
    (st : ExecState) : ExecState :=
  let (ready', futures) :=
    if st.buildFailed then (st.ready, []) else submitLoop nThreads st.ready []
  processDone g nodesAll { st with ready := ready' } futures

/-- The dispatch loop (`while not ready.empty() or futures:`), fuel-indexed;
between passes the futures list is empty, so the loop condition is the
non-emptiness of the ready queue.  `none` = the loop has not terminated
within the fuel. -/
def runLoop (g : Graph) (nodesAll : List Nat) (nThreads : Int) :
    Nat → ExecState → Option ExecState
  | fuel, st =>
    if st.ready.isEmpty then some st
    else
      match fuel with
      | 0 => none
      | f + 1 => runLoop g nodesAll nThreads f (loopIter g nodesAll nThreads st)

/-- The errors `execute_dependency_graph` can raise: `ValueError` on empty
targets, a `RuntimeError` from collection, and the post-run
`RuntimeError` for unprocessed nodes. -/
inductive ExecErr where
  | noTargets
  | collect (e : CErr)
  | incomplete
deriving DecidableEq, Repr

/-- The observable result of a run: the action invocations performed, and
either the outcome (`.ok` final state for a normal return, `.error` for a
raised error) or `none` when the run does not terminate within the fuel. -/
structure ExecResult where
  executed : List Nat
  outcome : Option (Except ExecErr ExecState)
deriving Repr

/-- The post-loop check of `execute_dependency_graph`: if the build did
not fail and some collected node was not completed, raise the
inconsistency error; otherwise return normally. -/
def finishRun (ns : List Nat) (r : Option ExecState) : ExecResult :=
  match r with
  | none => ⟨[], none⟩
  | some stF =>
    if stF.completed.length ≠ ns.length ∧ ¬ stF.buildFailed
    then ⟨stF.executed, some (.error .incomplete)⟩
    else ⟨stF.executed, some (.ok stF)⟩

/-- `execute_dependency_graph`: validate targets, collect the reachable
subgraph, initialize in-degrees and the ready queue, run the dispatch
loop, and apply the post-run completeness check.  A `BuildFailure` from
an action is caught inside the loop and only latches the flag: with the
flag set, the post-run check is skipped and the call returns normally. -/
def execDG (g : Graph) (nThreads : Int) (targets : List Nat) (fuel : Nat) :
    ExecResult :=
  if targets.isEmpty then ⟨[], some (.error .noTargets)⟩
  else
    match collectTargets g fuel targets with
    | none => ⟨[], none⟩
    | some (.error e) => ⟨[], some (.error (.collect e))⟩
    | some (.ok ns) =>
      let indeg := ns.map (fun n => (n, ((g.preds n).filter (fun p => p ∈ ns)).length))
      let ready := ns.filter (fun n => ((g.preds n).filter (fun p => p ∈ ns)).length == 0)
      let st0 : ExecState := ⟨ready, indeg, [], false, []⟩
      finishRun ns (runLoop g ns nThreads fuel st0)

/-- Did the call return normally (no exception)? -/
def outcomeNormal : Option (Except ExecErr ExecState) → Bool
  | some (.ok _) => true
  | _ => false

/-- The final build-failed flag of a normal return. -/
def outcomeFailedFlag : Option (Except ExecErr ExecState) → Bool
  | some (.ok s) => s.buildFailed
  | _ => false

/-! ## Claim C2: `save_cache` with an artifact set -/

/-- A loader state whose in-memory cache holds an entry for key `"a"`. -/
def stC2 : WState := ⟨[], [("a", "1")], []⟩

/-- An artifact under root `"r"` with key `"b"` and digest `"2"`. -/
def fC2 : FileN := ⟨"r/b", 0, "2", Status.unchanged⟩

/-- C2: the claim says that passing a non-None artifact set to `save_cache`
overwrites those entries in the in-memory cache and then serializes the
WHOLE in-memory map.  The code instead builds a fresh dict holding ONLY
the given artifacts' entries, serializes that, and leaves the in-memory
map untouched: saving `{b: 2}` over an in-memory cache `{a: 1}` writes a
file without `a` and leaves the memory without `b`. -/
theorem c2_save_cache_drops_entries :
    (save_cache "r" stC2 (some [fC2])).writes = [[("b", "2")]]
    ∧ (save_cache "r" stC2 (some [fC2])).cache = [("a", "1")]
    ∧ lookupD ((save_cache "r" stC2 (some [fC2])).writes.headI) "a" = ""
    ∧ lookupD (save_cache "r" stC2 (some [fC2])).cache "b" = "" := by
  decide

/-! ## Claim C5: `load_file` status classification -/

/-- The status rule written in the code's branch order agrees with the
rule in the claim's order (Deleted / Unchanged / Created / Modified):
the Created and Unchanged guards are mutually exclusive. -/
theorem status_rules_agree (e : Bool) (c h : String) :
    (if ¬ e then Status.deleted
     else if c = "" ∧ h ≠ "" then Status.created
     else if h = c ∧ h ≠ "" then Status.unchanged
     else Status.modified) =
    (if ¬ e then Status.deleted
     else if c = h ∧ h ≠ "" then Status.unchanged
     else if c = "" ∧ h ≠ "" then Status.created
     else Status.modified) := by
  by_cases he : e <;> by_cases hc : c = "" <;> by_cases hh : h = "" <;>
    by_cases hhc : h = c <;> simp_all [eq_comm]

/-- C5: `load_file` classifies the returned `File` exactly as the claim
states — Deleted when the path does not exist, Unchanged when the cached
digest equals the (non-empty) current digest, Created when the cached
digest is empty and the current one is not, Modified otherwise — sets the
file's hash to the current digest, and as its only side effect updates
the in-memory cache entry for the path's key to the current digest. -/
theorem c5_load_file_status (root path : String) (st : WState) :
    (load_file root st path).1.status =
      (if ¬ fsExists st.fs (absPathOf root path) then Status.deleted
       else if lookupD st.cache (relPath root (absPathOf root path))
                = computeHash st.fs (absPathOf root path)
              ∧ computeHash st.fs (absPathOf root path) ≠ "" then Status.unchanged
       else if lookupD st.cache (relPath root (absPathOf root path)) = ""
              ∧ computeHash st.fs (absPathOf root path) ≠ "" then Status.created
       else Status.modified)
    ∧ (load_file root st path).1.hash = computeHash st.fs (absPathOf root path)
    ∧ (load_file root st path).1.path = absPathOf root path
    ∧ (load_file root st path).2.cache
        = setKey st.cache (relPath root (absPathOf root path))
            (computeHash st.fs (absPathOf root path))
    ∧ (load_file root st path).2.fs = st.fs
    ∧ (load_file root st path).2.writes = st.writes := by
  refine ⟨?_, rfl, rfl, rfl, rfl, rfl⟩
  simpa [load_file] using
    status_rules_agree (fsExists st.fs (absPathOf root path))
      (lookupD st.cache (relPath root (absPathOf root path)))
      (computeHash st.fs (absPathOf root path))

/-! ## Claim C6: LinkCppApp's library flags -/

/-- C6 counterexample: the claim says each `.so` contributes one
`-L<dir> -l<name>` pair with only a LEADING `lib` and TRAILING `.so`
stripped and each name paired with its own directory.  The code strips
EVERY occurrence of `lib` and `.so` (basename `liblibz.so` yields `-lz`,
not `-llibz`), and zips names against the deduplicated SET of
directories, so two `.so` files in the same directory yield one pair
instead of two. -/
theorem c6_counterexample :
    soLibFlags "r" ["r/liblibz.so"] = "-L . -lz"
    ∧ specLinkAppLibFlags "r" ["r/liblibz.so"] = "-L . -llibz"
    ∧ soLibFlags "r" ["r/liblibz.so"] ≠ specLinkAppLibFlags "r" ["r/liblibz.so"]
    ∧ soLibFlags "r" ["r/d/liba.so", "r/d/libb.so"] = "-L d -la"
    ∧ specLinkAppLibFlags "r" ["r/d/liba.so", "r/d/libb.so"]
        = "-L d -la -L d -lb" := by
  decide

/-- C6 amended: with no `.so` predecessors the link flags are empty, and
with a single `.so` predecessor the flags are one `-L <dir> -l<name>`
pair where `<dir>` is that file's directory relative to the root and
`<name>` is its basename with every occurrence of `lib` and of `.so`
removed (with several `.so` files the names are zipped against the
deduplicated set of directories, so pairs are per distinct directory,
not per file). -/
theorem c6_amended (root p : String) :
    soLibFlags root [] = ""
    ∧ soLibFlags root [p]
        = "-L " ++ relPath root (dirname p) ++ " -l" ++ stripLibName p := by
  constructor
  · rfl
  · simp [soLibFlags, pyDedup, jn]

/-! ## Claim C3: bundled actions and artifact metadata -/

/-- A successful `os.makedirs` oracle with no modelled filesystem effect. -/
def trivialMkdirs : Mkdirs := fun _ st => some st

/-- A directory `File` whose metadata the claim says the action leaves
alone. -/
def fC3 : FileN := ⟨"r/build", 0, "h0", Status.modified⟩

/-- A loader state with a cached digest for the directory's key. -/
def stC3 : WState := ⟨[], [("build", "x")], []⟩

/-- C3 counterexample: `MakeDirAction.execute`, constructed with a
file_loader, overwrites the found successor's hash (to `""`) and status
(from the cached digest) itself — the metadata is NOT left to the
conditional wrapper. -/
theorem c3_counterexample :
    (makeDirExecute trivialMkdirs (some "r") [] [.file fC3] stC3).ok = true
    ∧ (makeDirExecute trivialMkdirs (some "r") [] [.file fC3] stC3).succs
        = [.file ⟨"r/build", 0, "", Status.unchanged⟩]
    ∧ (⟨"r/build", 0, "", Status.unchanged⟩ : FileN).hash ≠ fC3.hash
    ∧ (⟨"r/build", 0, "", Status.unchanged⟩ : FileN).status ≠ fC3.status := by
  decide

/-- `l'` is `l` with at most one `File` node's fields updated in place
(same path, same position, everything else untouched). -/
def MetaFrame (l l' : List BNode) : Prop :=
  l' = l ∨ ∃ l1 f f' l2, l = l1 ++ BNode.file f :: l2
    ∧ l' = l1 ++ BNode.file f' :: l2 ∧ f'.path = f.path

theorem firstFile_update_decomp (sel : FileN → Bool) (u : FileN → FileN) :
    ∀ (l : List BNode) (f' : FileN), firstFileWith sel l = some f' →
      ∃ l1 l2, l = l1 ++ BNode.file f' :: l2
        ∧ updateFirstFileWith sel u l = l1 ++ BNode.file (u f') :: l2
        := by
  intro l
  induction l with
  | nil => intro f' h; exact absurd h (by simp [firstFileWith])
  | cons n rest ih =>
    intro f' h
    cases n with
    | file f =>
      by_cases hs : sel f
      · rw [firstFileWith, if_pos hs] at h
        obtain rfl : f = f' := by simpa using h
        exact ⟨[], rest, rfl, by simp [updateFirstFileWith, hs]⟩
      · rw [firstFileWith, if_neg hs] at h
        obtain ⟨l1, l2, h1, h2⟩ := ih f' h
        exact ⟨.file f :: l1, l2, by simp [h1],
          by simp [updateFirstFileWith, hs, h2]⟩
    | data s =>
      obtain ⟨l1, l2, h1, h2⟩ := ih f' (by simpa [firstFileWith] using h)
      exact ⟨.data s :: l1, l2, by simp [h1],
        by simp [updateFirstFileWith, h2]⟩
    | cmd =>
      obtain ⟨l1, l2, h1, h2⟩ := ih f' (by simpa [firstFileWith] using h)
      exact ⟨.cmd :: l1, l2, by simp [h1],
        by simp [updateFirstFileWith, h2]⟩

theorem metaFrame_of_update {sel : FileN → Bool} {u : FileN → FileN}
    {l : List BNode} {f' : FileN} (h : firstFileWith sel l = some f')
    (hpath : (u f').path = f'.path) :
    MetaFrame l (updateFirstFileWith sel u l) := by
  obtain ⟨l1, l2, h1, h2⟩ := firstFile_update_decomp sel u l f' h
  exact Or.inr ⟨l1, f', u f', l2, h1, h2, hpath⟩

/-- C3 amended: `CommandLineAction` never updates artifact metadata, and
neither does `MakeDirAction` without a file_loader; when constructed with
a file_loader, `MakeDir`, `CompileCpp`, `LinkCppShared` and `LinkCppApp`
update the hash and status of exactly the selected output successor
themselves (same path, same position; predecessors and all other
successors untouched). -/
theorem c3_amended (spawn : Spawn) (mk : Mkdirs) (command root : String)
    (preds succs : List BNode) (st : WState) :
    ((commandLineExecute spawn command preds succs st).preds = preds
      ∧ (commandLineExecute spawn command preds succs st).succs = succs)
    ∧ ((makeDirExecute mk none preds succs st).preds = preds
      ∧ (makeDirExecute mk none preds succs st).succs = succs)
    ∧ ((makeDirExecute mk (some root) preds succs st).preds = preds
      ∧ MetaFrame succs (makeDirExecute mk (some root) preds succs st).succs)
    ∧ ((compileCppExecute spawn root preds succs st).preds = preds
      ∧ MetaFrame succs (compileCppExecute spawn root preds succs st).succs)
    ∧ ((linkCppSharedExecute spawn root preds succs st).preds = preds
      ∧ MetaFrame succs (linkCppSharedExecute spawn root preds succs st).succs)
    ∧ ((linkCppAppExecute spawn root preds succs st).preds = preds
      ∧ MetaFrame succs (linkCppAppExecute spawn root preds succs st).succs) := by
  refine ⟨⟨?_, ?_⟩, ⟨?_, ?_⟩, ⟨?_, ?_⟩, ⟨?_, ?_⟩, ⟨?_, ?_⟩, ⟨?_, ?_⟩⟩
  · unfold commandLineExecute; split <;> rfl
  · unfold commandLineExecute; split <;> rfl
  · unfold makeDirExecute; dsimp only; repeat' split
    all_goals rfl
  · unfold makeDirExecute; dsimp only; repeat' split
    all_goals rfl
  · unfold makeDirExecute; dsimp only; repeat' split
    all_goals rfl
  · unfold makeDirExecute
    dsimp only
    split
    · exact Or.inl rfl
    · next df h1 =>
      split
      · exact Or.inl rfl
      · exact metaFrame_of_update h1 rfl
  · unfold compileCppExecute; dsimp only; repeat' split
    all_goals rfl
  · unfold compileCppExecute
    dsimp only
    split
    · exact Or.inl rfl
    · next cf h1 =>
      split
      · exact Or.inl rfl
      · next of h2 =>
        split
        · exact Or.inl rfl
        · exact metaFrame_of_update h2 rfl
  · unfold linkCppSharedExecute; dsimp only; repeat' split
    all_goals rfl
  · unfold linkCppSharedExecute
    dsimp only
    split
    · exact Or.inl rfl
    · split
      · exact Or.inl rfl
      · next sf h1 =>
        split
        · exact Or.inl rfl
        · exact metaFrame_of_update h1 rfl
  · unfold linkCppAppExecute; dsimp only; repeat' split
    all_goals rfl
  · unfold linkCppAppExecute
    dsimp only
    split
    · exact Or.inl rfl
    · split
      · exact Or.inl rfl
      · next ef h1 =>
        split
        · exact Or.inl rfl
        · exact metaFrame_of_update h1 rfl

/-! ## Claim C4: the untouched (skip) branch of the wrapper -/

/-- Boolean version of "this predecessor artifact is Unchanged" (commands
vacuously pass). -/
def artUnchangedB (p : BNode) : Bool :=
  match p with
  | .data s => s == Status.unchanged
  | .file f => f.status == Status.unchanged
  | .cmd => true

theorem shouldExec_eq_false {preds : List BNode}
    (h : preds.all artUnchangedB = true) : shouldExec preds = false := by
  rw [shouldExec, List.any_eq_false]
  intro p hp
  have hu := List.all_eq_true.mp h p hp
  cases p with
  | data s => simp
  | cmd => simp
  | file f =>
    have : f.status = Status.unchanged := by simpa [artUnchangedB] using hu
    simp [this]

/-- The per-file postcondition of the skip branch: the status is never
Created; it is Deleted exactly when the path does not exist; for existing
paths the hash is the re-computed digest and Unchanged holds exactly when
that digest matches the cache and is non-empty; for missing paths the
hash is cleared. -/
def skipOkB (root : String) (st : WState) (f : FileN) : Bool :=
  (f.status != Status.created)
  && ((f.status == Status.deleted) == ! fsExists st.fs f.path)
  && (if fsExists st.fs f.path then
        f.hash == computeHash st.fs f.path
        && ((f.status == Status.unchanged)
            == (f.hash == lookupD st.cache (relPath root f.path) && f.hash != ""))
      else f.hash == "")

theorem skipReclass_ok (root : String) (st : WState) (f0 : FileN) :
    skipOkB root st (skipReclass root st f0) = true := by
  unfold skipReclass skipOkB
  by_cases he : fsExists st.fs f0.path <;>
    by_cases h1 : computeHash st.fs f0.path
      = lookupD st.cache (relPath root f0.path) <;>
    by_cases h2 : computeHash st.fs f0.path = "" <;>
    simp_all [bne, beq_iff_eq, beq_eq_false_iff_ne,
      (show (Status.modified == Status.unchanged) = false from rfl)]

theorem filesOf_mapFiles (g : FileN → FileN) (l : List BNode) :
    filesOf (mapFiles g l) = (filesOf l).map g := by
  induction l with
  | nil => rfl
  | cons n rest ih => cases n <;> simp_all [filesOf, mapFiles]

theorem filesOf_append (a b : List BNode) :
    filesOf (a ++ b) = filesOf a ++ filesOf b := by
  simp [filesOf]

/-- C4: for a command none of whose predecessor artifacts is touched, the
wrapper's result does not depend on the inner action (it is skipped),
reports success, re-digests and reclassifies every file of `P ∪ S` with
the skip rule — which never produces Created — and performs exactly one
cache write, leaving the in-memory cache and the filesystem alone. -/
theorem c4_untouched_skip (root : String) (inner inner' : InnerAction)
    (preds succs : List BNode) (st : WState)
    (h : preds.all artUnchangedB = true) :
    (executeOnTouched root inner preds succs st).ok = true
    ∧ executeOnTouched root inner' preds succs st
        = executeOnTouched root inner preds succs st
    ∧ (filesOf ((executeOnTouched root inner preds succs st).preds
        ++ (executeOnTouched root inner preds succs st).succs)).all
          (skipOkB root st) = true
    ∧ (executeOnTouched root inner preds succs st).st.cache = st.cache
    ∧ (executeOnTouched root inner preds succs st).st.fs = st.fs
    ∧ (executeOnTouched root inner preds succs st).st.writes.length
        = st.writes.length + 1 := by
  have hse := shouldExec_eq_false h
  have hres : ∀ i : InnerAction, executeOnTouched root i preds succs st
      = ⟨true, mapFiles (skipReclass root st) preds,
          mapFiles (skipReclass root st) succs,
          save_cache root st
            (some (filesOf (mapFiles (skipReclass root st) preds)
              ++ filesOf (mapFiles (skipReclass root st) succs)))⟩ := by
    intro i
    simp [executeOnTouched, hse]
  rw [hres inner, hres inner']
  refine ⟨rfl, rfl, ?_, rfl, rfl, rfl⟩
  dsimp only
  rw [List.all_eq_true]
  intro f hf
  rw [filesOf_append, List.mem_append] at hf
  rcases hf with hf | hf <;>
  · rw [filesOf_mapFiles] at hf
    obtain ⟨f0, _, rfl⟩ := List.mem_map.mp hf
    exact skipReclass_ok root st f0

/-- A trivially succeeding inner action. -/
def innerA : InnerAction := fun preds succs st => ⟨true, preds, succs, st⟩

/-- A very different inner action (fails and clears the edge sets), used
to witness that the skip branch ignores the inner action entirely. -/
def innerB : InnerAction := fun _ _ st => ⟨false, [], [], st⟩

/-- Concrete untouched predecessors: an unchanged file and an unchanged
non-file artifact. -/
def predsC4 : List BNode :=
  [.file ⟨"r/a", 0, "d1", Status.unchanged⟩, .data Status.unchanged]

/-- A concrete successor file that is missing on disk. -/
def succsC4 : List BNode := [.file ⟨"r/b", 0, "", Status.unchanged⟩]

/-- A world in which `r/a` exists with digest `d1`, also cached. -/
def stC4 : WState := ⟨[("r/a", .file "d1" 1)], [("a", "d1")], []⟩

/-- Witness for C4 at a concrete untouched command. -/
theorem c4_untouched_skip_witness :
    predsC4.all artUnchangedB = true
    ∧ ((executeOnTouched "r" innerA predsC4 succsC4 stC4).ok = true
      ∧ executeOnTouched "r" innerB predsC4 succsC4 stC4
          = executeOnTouched "r" innerA predsC4 succsC4 stC4
      ∧ (filesOf ((executeOnTouched "r" innerA predsC4 succsC4 stC4).preds
          ++ (executeOnTouched "r" innerA predsC4 succsC4 stC4).succs)).all
            (skipOkB "r" stC4) = true
      ∧ (executeOnTouched "r" innerA predsC4 succsC4 stC4).st.cache = stC4.cache
      ∧ (executeOnTouched "r" innerA predsC4 succsC4 stC4).st.fs = stC4.fs
      ∧ (executeOnTouched "r" innerA predsC4 succsC4 stC4).st.writes.length
          = stC4.writes.length + 1) :=
  ⟨by decide, c4_untouched_skip "r" innerA innerB predsC4 succsC4 stC4 (by decide)⟩

/-! ## Claim C10: the wrapper on inner-action failure -/

/-- C10: when the command is touched and the inner action fails, the
wrapper returns the inner action's result as is — the wrapper itself
re-digests nothing, changes no artifact metadata, and writes no cache
file. -/
theorem c10_inner_failure (root : String) (inner : InnerAction)
    (preds succs : List BNode) (st : WState)
    (h1 : shouldExec preds = true)
    (h2 : (inner preds succs st).ok = false) :
    executeOnTouched root inner preds succs st = inner preds succs st := by
  simp [executeOnTouched, h1, h2]

/-- An inner action that fails and (like every bundled action's failure
path) leaves the world and the edge sets untouched. -/
def innerFail : InnerAction := fun preds succs st => ⟨false, preds, succs, st⟩

/-- A touched predecessor set. -/
def predsC10 : List BNode := [.file ⟨"r/x", 0, "h", Status.modified⟩]

/-- An empty world for the C10 witness. -/
def stC10 : WState := ⟨[], [], []⟩

/-- Witness for C10: at this concrete input, the wrapper returns failure
with the predecessors, successors, cache, filesystem and write log all
exactly as before. -/
theorem c10_inner_failure_witness :
    shouldExec predsC10 = true
    ∧ (innerFail predsC10 [] stC10).ok = false
    ∧ executeOnTouched "r" innerFail predsC10 [] stC10
        = innerFail predsC10 [] stC10 :=
  ⟨by decide, by decide,
    c10_inner_failure "r" innerFail predsC10 [] stC10 (by decide) (by decide)⟩

/-! ## Claims C7 and C9: errors during collection -/

theorem collectTargets_ok_inv {g : Graph} {ts : List Nat} {fuel : Nat}
    {N' : List Nat} (h : collectTargets g fuel ts = some (.ok N')) :
    CollectInv g [] N' ∧ ∀ t ∈ ts, t ∈ N' := by
  have h0 : CollectInv g [] [] := fun x hx => absurd hx (List.not_mem_nil x)
  obtain ⟨_, hInv, hall⟩ := collectList_ok (collectNode g fuel [])
    (fun ns p ns' hi hc => collectNode_ok g fuel hi hc) ts [] N' h0 h
  exact ⟨hInv, fun t ht => (hall t ht).1⟩

theorem execDG_not_ok_of_collect (g : Graph) (nT : Int) (ts : List Nat)
    (fuel : Nat) (h : isOkCollect (collectTargets g fuel ts) = false) :
    outcomeNormal (execDG g nT ts fuel).outcome = false
    ∧ (execDG g nT ts fuel).executed = [] := by
  unfold execDG
  by_cases hts : ts.isEmpty
  · simp [hts, outcomeNormal]
  · rcases hres : collectTargets g fuel ts with _ | r
    · simp [hts, hres, outcomeNormal]
    · rcases r with e | ns
      · simp [hts, hres, outcomeNormal]
      · rw [hres] at h
        exact absurd h (by simp [isOkCollect])

/-- C7 (amended): a graph with a predecessor-cycle reachable from a target
never collects successfully — a cycle error, or a structural/invalid-node
error hit first, is raised during collection — and the executor
consequently raises before any action is executed. -/
theorem c7_cycle_collection_error (g : Graph) (ts : List Nat) (t m p : Nat)
    (fuel : Nat) (nT : Int) (h1 : t ∈ ts) (h2 : Reaches g t m)
    (h3 : p ∈ g.preds m) (h4 : Reaches g p m) :
    isOkCollect (collectTargets g fuel ts) = false
    ∧ outcomeNormal (execDG g nT ts fuel).outcome = false
    ∧ (execDG g nT ts fuel).executed = [] := by
  have hok : isOkCollect (collectTargets g fuel ts) = false := by
    rcases hres : collectTargets g fuel ts with _ | r
    · rfl
    · rcases r with e | N'
      · rfl
      · exfalso
        obtain ⟨hInv, hall⟩ := collectTargets_ok_inv hres
        exact collected_safe hInv (hall t h1) m h2 ⟨p, h3, h4⟩
  obtain ⟨ho, he⟩ := execDG_not_ok_of_collect g nT ts fuel hok
  exact ⟨hok, ho, he⟩

/-- Two `Data` artifacts forming a predecessor cycle (a bipartite
violation as well as a cycle). -/
def gCyc : Graph :=
  { kind := fun _ => .data
    preds := fun n => if n == 0 then [1] else if n == 1 then [0] else []
    succs := fun n => if n == 0 then [1] else if n == 1 then [0] else []
    hasAction := fun _ => false
    act := fun _ => true }

/-- C7 counterexample: this graph has a cycle reachable from the target,
yet collection raises the invalid-structure error (the bipartite check on
node 0 fires before the walk returns to the stack), not a cycle error —
so "raises a cycle error" does not hold of every cyclic graph. -/
theorem c7_counterexample :
    (1 ∈ gCyc.preds 0 ∧ Reaches gCyc 1 0)
    ∧ collectErrOf (collectTargets gCyc 10 [0]) = some (.invalidStructure 0)
    ∧ errIsCycle (collectTargets gCyc 10 [0]) = false := by
  exact ⟨⟨by decide,
    Reaches.step (show 0 ∈ gCyc.preds 1 by decide) (Reaches.refl 0)⟩,
    by decide, by decide⟩

/-- A valid bipartite graph with a predecessor cycle
`file 0 ← cmd 1 ← file 2 ← cmd 3 ← file 0`. -/
def gCyc2 : Graph :=
  { kind := fun n => if n % 2 == 0 then .file else .cmd
    preds := fun n => if n ≤ 3 then [(n + 1) % 4] else []
    succs := fun n => if n ≤ 3 then [(n + 3) % 4] else []
    hasAction := fun _ => false
    act := fun _ => true }

/-- Witness for the amended C7 on the valid bipartite cycle. -/
theorem c7_cycle_collection_error_witness :
    (0 ∈ [0] ∧ Reaches gCyc2 0 0 ∧ 1 ∈ gCyc2.preds 0 ∧ Reaches gCyc2 1 0)
    ∧ (isOkCollect (collectTargets gCyc2 9 [0]) = false
      ∧ outcomeNormal (execDG gCyc2 1 [0] 9).outcome = false
      ∧ (execDG gCyc2 1 [0] 9).executed = []) :=
  ⟨⟨by decide, Reaches.refl 0, by decide,
      Reaches.step (show 2 ∈ gCyc2.preds 1 by decide)
        (Reaches.step (show 3 ∈ gCyc2.preds 2 by decide)
          (Reaches.step (show 0 ∈ gCyc2.preds 3 by decide) (Reaches.refl 0)))⟩,
    c7_cycle_collection_error gCyc2 [0] 0 0 1 9 1 (by decide) (Reaches.refl 0)
      (by decide)
      (Reaches.step (show 2 ∈ gCyc2.preds 1 by decide)
        (Reaches.step (show 3 ∈ gCyc2.preds 2 by decide)
          (Reaches.step (show 0 ∈ gCyc2.preds 3 by decide) (Reaches.refl 0))))⟩

/-- C9: any node of the reachable subgraph that is neither `Data`, `File`
nor `Command` makes collection fail (with some `RuntimeError`), whatever
its edge sets or action, so the executor raises before running any
action. -/
theorem c9_invalid_kind (g : Graph) (ts : List Nat) (t m : Nat)
    (fuel : Nat) (nT : Int) (h1 : t ∈ ts) (h2 : Reaches g t m)
    (h3 : g.kind m = NodeKind.other) :
    isOkCollect (collectTargets g fuel ts) = false
    ∧ outcomeNormal (execDG g nT ts fuel).outcome = false
    ∧ (execDG g nT ts fuel).executed = [] := by
  have hok : isOkCollect (collectTargets g fuel ts) = false := by
    rcases hres : collectTargets g fuel ts with _ | r
    · rfl
    · rcases r with e | N'
      · rfl
      · exfalso
        obtain ⟨hInv, hall⟩ := collectTargets_ok_inv hres
        have hval := (reachable_validated hInv (hall t h1) h2).2
        rw [Validated, validateE, h3] at hval
        exact absurd hval (by simp)
  obtain ⟨ho, he⟩ := execDG_not_ok_of_collect g nT ts fuel hok
  exact ⟨hok, ho, he⟩

/-- A single node that is a direct `Node` subclass (neither Data, File nor
Command), with empty, well-formed edge sets. -/
def gOther : Graph :=
  { kind := fun _ => .other
    preds := fun _ => []
    succs := fun _ => []
    hasAction := fun _ => true
    act := fun _ => true }

/-- Witness for C9 at the concrete one-node graph. -/
theorem c9_invalid_kind_witness :
    (0 ∈ [0] ∧ Reaches gOther 0 0 ∧ gOther.kind 0 = NodeKind.other)
    ∧ (isOkCollect (collectTargets gOther 5 [0]) = false
      ∧ outcomeNormal (execDG gOther 1 [0] 5).outcome = false
      ∧ (execDG gOther 1 [0] 5).executed = []) :=
  ⟨⟨by decide, Reaches.refl 0, rfl⟩,
    c9_invalid_kind gOther [0] 0 0 5 1 (by decide) (Reaches.refl 0) rfl⟩

/-! ## Claims C1 and C8: the dispatch loop -/

/-- A single `Command` target whose action returns `False`. -/
def gFail : Graph :=
  { kind := fun _ => .cmd
    preds := fun _ => []
    succs := fun _ => []
    hasAction := fun _ => true
    act := fun _ => false }

/-- C1: the claim (and the docstring of `execute_dependency_graph`, and
the spec's failure semantics) says a build-failure error is raised after
quiescence when an action returns false.  The code catches `BuildFailure`
inside the loop, latches the flag, and — because the post-run check is
skipped when the flag is set — RETURNS NORMALLY: on a one-command graph
whose action fails, the action runs, the flag is set, nothing is
completed, and yet the call returns without raising. -/
theorem c1_build_failure_swallowed :
    gFail.act 0 = false
    ∧ (execDG gFail 1 [0] 5).executed = [0]
    ∧ outcomeNormal (execDG gFail 1 [0] 5).outcome = true
    ∧ outcomeFailedFlag (execDG gFail 1 [0] 5).outcome = true := by
  decide

/-- A single plain `Data` target with no action. -/
def gOne : Graph :=
  { kind := fun _ => .data
    preds := fun _ => []
    succs := fun _ => []
    hasAction := fun _ => false
    act := fun _ => true }

/-- The completed set of a normal return. -/
def okCompleted : Option (Except ExecErr ExecState) → List Nat
  | some (.ok s) => s.completed
  | _ => []

/-- C8: the claim says the dispatch loop, over a pool of
`max(1, n_workers)` threads, terminates with every node completed for
EVERY integer `n_workers` including zero and negative values.  The pool
is indeed created with `max(1, n_threads)` workers, but the submission
gate compares against the raw `n_threads`, so for `n_threads = 0` no
task is ever submitted and the `while` loop spins forever (the run never
terminates, at any fuel), already on a one-node graph — while the same
graph at `n_threads = 1` terminates with the node completed. -/
theorem c8_zero_workers_hang :
    (∀ fuel, runLoop gOne [0] 0 fuel ⟨[0], [(0, 0)], [], false, []⟩ = none)
    ∧ (∀ fuel, (execDG gOne 0 [0] fuel).outcome = none)
    ∧ outcomeNormal (execDG gOne 1 [0] 5).outcome = true
    ∧ okCompleted (execDG gOne 1 [0] 5).outcome = [0] := by
  have hrun : ∀ fuel, runLoop gOne [0] 0 fuel ⟨[0], [(0, 0)], [], false, []⟩ = none := by
    intro fuel
    induction fuel with
    | zero => rfl
    | succ f ih => exact ih
  refine ⟨hrun, ?_, by decide, by decide⟩
  intro fuel
  cases fuel with
  | zero => rfl
  | succ f =>
    have hred : execDG gOne 0 [0] (f + 1)
        = finishRun [0] (runLoop gOne [0] 0 (f + 1) ⟨[0], [(0, 0)], [], false, []⟩) :=
      rfl
    rw [hred, hrun (f + 1)]
    rfl

end Brix
